import Mathlib

/-!
Verification development for the `pygame-online-experiments` networking
library.  The definitions below are shallow embeddings of the Python code in
`src/net/common.py`, `src/net/tcpserver.py`, `src/net/tcpclient.py` and the
parallel implementation `src/net.py`.  Bytes are modelled as natural numbers
(values `< 256`), byte strings as `List Nat`, wall-clock instants as
rationals, and each stateful object as an explicit Lean structure with the
mutating methods as state-transition functions.
-/

namespace PygameNet

/-! ## Packet codec (`src/net/common.py`, lines 13–49)

`build_header(fmt, length)` is
`struct.pack("H", fmt)[:1] + str(length).zfill(5).encode()`:
the first byte of the little-endian 16-bit encoding of `fmt` (that is,
`fmt % 256`), followed by the decimal digit characters of `length`
left-padded with the character `'0'` (byte 48) to at least five characters.
-/

/-- The decimal digit values of `n`, most significant first, as produced by
Python's `str(n)` (so `0` becomes `[0]`).  `Nat.digits 10 n` lists the
digits least significant first and is empty at `0`, hence the reversal and
the special case. -/
def strDigits (n : Nat) : List Nat :=
  if n = 0 then [0] else (Nat.digits 10 n).reverse

/-- ASCII encoding of a digit character: digit value `d` becomes byte
`48 + d`. -/
def digitByte (d : Nat) : Nat := d + 48

/-- `str(n).encode()`: the ASCII bytes of the decimal representation. -/
def strBytes (n : Nat) : List Nat := (strDigits n).map digitByte

/-- Python's `s.zfill(5)` on a byte string: left-pad with `'0'` (byte 48)
up to length 5; a longer string is returned unchanged. -/
def zfill5 (s : List Nat) : List Nat :=
  List.replicate (5 - s.length) 48 ++ s

/-- `build_header` from `src/net/common.py` (identical in `src/net.py`):
`struct.pack("H", fmt)[:1]` is the byte `fmt % 256` for the in-range
formats the program uses, followed by the zero-filled decimal length. -/
def build_header (fmt length : Nat) : List Nat :=
  (fmt % 256) :: zfill5 (strBytes length)

/-- `build_packet` from `src/net/common.py`: header plus raw data. -/
def build_packet (fmt : Nat) (data : List Nat) : List Nat :=
  build_header fmt data.length ++ data

/-- The `PacketFormat` enumeration of `src/net/common.py`. -/
inductive PacketFormat where
  | RAW
  | HEARTBEAT_PING
  | HEARTBEAT_PONG
deriving DecidableEq, Repr

/-- The numeric wire code of each variant in `src/net/common.py`:
`RAW = 0`, `HEARTBEAT_PING = 1`, `HEARTBEAT_PONG = 2`. -/
def PacketFormat.val : PacketFormat → Nat
  | .RAW => 0
  | .HEARTBEAT_PING => 1
  | .HEARTBEAT_PONG => 2

/-- The enum constructor call `PacketFormat(x)`: the variant whose value is
`x`, or a `ValueError` (modelled as `none`) for an unassigned code. -/
def PacketFormat.ofVal : Nat → Option PacketFormat
  | 0 => some .RAW
  | 1 => some .HEARTBEAT_PING
  | 2 => some .HEARTBEAT_PONG
  | _ => none

/-- The second, parallel `PacketFormat` enumeration, in `src/net.py`
(lines 50–53): `HEARTBEAT_PING = 0`, `HEARTBEAT_PONG = 1`, `RAW = 2`. -/
inductive NetPacketFormat where
  | RAW
  | HEARTBEAT_PING
  | HEARTBEAT_PONG
deriving DecidableEq, Repr

/-- The numeric codes assigned by `src/net.py`. -/
def NetPacketFormat.val : NetPacketFormat → Nat
  | .HEARTBEAT_PING => 0
  | .HEARTBEAT_PONG => 1
  | .RAW => 2

/-! ## Decoding, as performed by the receive loops
(`TCPClientConnection._listen_job`, `src/net/tcpserver.py` lines 215–263;
`TCPClient._listen_job`, `src/net/tcpclient.py` lines 94–148)

The loop reads 6 header bytes, takes byte 0 as `PacketFormat(int(b[0]))`,
parses bytes 1–5 with `int(...)` as the decimal payload length, then reads
that many payload bytes.  `int()` on a byte string of decimal digits is
modelled exactly; non-digit bytes make it raise, modelled as `none`. -/

/-- `int()` over ASCII decimal digit bytes, with an accumulator:
fails on any byte outside `'0'..'9'`. -/
def parseDigitsFrom (acc : Nat) : List Nat → Option Nat
  | [] => some acc
  | b :: bs =>
      if 48 ≤ b ∧ b ≤ 57 then parseDigitsFrom (acc * 10 + (b - 48)) bs
      else none

/-- `int(bs)` for a byte string of decimal digits; `int(b"")` raises, so
the empty string fails. -/
def parseDigits (bs : List Nat) : Option Nat :=
  match bs with
  | [] => none
  | _ :: _ => parseDigitsFrom 0 bs

/-- One frame decoded from the front of a byte stream, exactly as the
receive loops do: 6 header bytes (format code then five length digits),
then `length` payload bytes; returns the format, the payload and the
unconsumed remainder of the stream. -/
def decodePacket (bs : List Nat) : Option (PacketFormat × List Nat × List Nat) :=
  match bs with
  | b0 :: d1 :: d2 :: d3 :: d4 :: d5 :: rest =>
      match PacketFormat.ofVal b0, parseDigits [d1, d2, d3, d4, d5] with
      | some fmt, some len =>
          if len ≤ rest.length then some (fmt, rest.take len, rest.drop len)
          else none
      | _, _ => none
  | _ => none

/-! ### Codec lemmas -/

theorem strDigits_lt_ten (n : Nat) : ∀ d ∈ strDigits n, d < 10 := by
  intro d hd
  unfold strDigits at hd
  split at hd
  · simp at hd; omega
  · exact Nat.digits_lt_base (by norm_num) (List.mem_reverse.mp hd)

theorem foldl_strDigits (n : Nat) :
    (strDigits n).foldl (fun a d => a * 10 + d) 0 = n := by
  unfold strDigits
  split
  · simp; omega
  · have key : ∀ l : List Nat,
        l.reverse.foldl (fun a d => a * 10 + d) 0 = Nat.ofDigits 10 l := by
      intro l
      induction l with
      | nil => simp [Nat.ofDigits]
      | cons d tl ih =>
          rw [List.reverse_cons, List.foldl_append, ih, Nat.ofDigits_cons]
          simp
          ring
    rw [key, Nat.ofDigits_digits]

theorem strDigits_length_le (n : Nat) (h : n ≤ 99999) :
    (strDigits n).length ≤ 5 := by
  unfold strDigits
  split
  · simp
  · rw [List.length_reverse]
    by_contra hlen
    push_neg at hlen
    have h1 : (10 : Nat) ^ (Nat.digits 10 n).length ≤ 10 * n :=
      Nat.base_pow_length_digits_le 10 n (by norm_num) (by assumption)
    have h2 : (10 : Nat) ^ 6 ≤ 10 ^ (Nat.digits 10 n).length :=
      Nat.pow_le_pow_right (by norm_num) hlen
    omega

theorem strDigits_length_100000 : (strDigits 100000).length = 6 := by
  unfold strDigits
  rw [if_neg (by norm_num), List.length_reverse]
  have h1 : (100000 : Nat) < 10 ^ (Nat.digits 10 100000).length :=
    Nat.lt_base_pow_length_digits (by norm_num)
  have h2 : (10 : Nat) ^ (Nat.digits 10 100000).length ≤ 10 * 100000 :=
    Nat.base_pow_length_digits_le 10 100000 (by norm_num) (by norm_num)
  set L := (Nat.digits 10 100000).length with hL
  by_contra hne
  have h5 : L ≤ 5 ∨ 7 ≤ L := by omega
  rcases h5 with h5 | h5
  · have h6 : (10 : Nat) ^ L ≤ 10 ^ 5 := Nat.pow_le_pow_right (by norm_num) h5
    have h7 : (10 : Nat) ^ 5 = 100000 := by norm_num
    omega
  · have h6 : (10 : Nat) ^ 7 ≤ 10 ^ L := Nat.pow_le_pow_right (by norm_num) h5
    have h7 : (10 : Nat) ^ 7 = 10000000 := by norm_num
    omega

theorem parseDigitsFrom_digitBytes (ds : List Nat) (hds : ∀ d ∈ ds, d < 10) :
    ∀ acc, parseDigitsFrom acc (ds.map digitByte)
      = some (ds.foldl (fun a d => a * 10 + d) acc) := by
  induction ds with
  | nil => intro acc; simp [parseDigitsFrom]
  | cons d tl ih =>
      intro acc
      have hd : d < 10 := hds d (by simp)
      have htl : ∀ x ∈ tl, x < 10 := fun x hx => hds x (by simp [hx])
      simp only [List.map_cons, parseDigitsFrom, digitByte]
      rw [if_pos (by omega)]
      have : d + 48 - 48 = d := by omega
      rw [this, List.foldl_cons]
      exact ih htl (acc * 10 + d)

theorem parseDigitsFrom_replicate48 (k : Nat) (rest : List Nat) :
    parseDigitsFrom 0 (List.replicate k 48 ++ rest) = parseDigitsFrom 0 rest := by
  induction k with
  | zero => simp
  | succ m ih =>
      rw [List.replicate_succ, List.cons_append]
      simp only [parseDigitsFrom]
      rw [if_pos (by omega)]
      simpa using ih

theorem strDigits_ne_nil (n : Nat) : strDigits n ≠ [] := by
  unfold strDigits
  split
  · simp
  · simpa using Nat.digits_ne_nil_iff_ne_zero.mpr (by assumption)

theorem parseDigits_eq_of_ne_nil (bs : List Nat) (h : bs ≠ []) :
    parseDigits bs = parseDigitsFrom 0 bs := by
  obtain ⟨hd, tl, rfl⟩ := List.exists_cons_of_ne_nil h
  rfl

/-- Parsing the zero-filled length field recovers the length (padding with
`'0'` never changes the parsed value). -/
theorem parseDigits_zfill (n : Nat) :
    parseDigits (zfill5 (strBytes n)) = some n := by
  have hne : zfill5 (strBytes n) ≠ [] := by
    apply List.ne_nil_of_length_pos
    unfold zfill5 strBytes
    have h1 : (strDigits n).length ≠ 0 :=
      fun h => strDigits_ne_nil n (List.eq_nil_of_length_eq_zero h)
    simp only [List.length_append, List.length_replicate, List.length_map]
    omega
  rw [parseDigits_eq_of_ne_nil _ hne]
  unfold zfill5 strBytes
  rw [List.length_map, parseDigitsFrom_replicate48,
    parseDigitsFrom_digitBytes (strDigits n) (strDigits_lt_ten n) 0,
    foldl_strDigits]

theorem zfill5_strBytes_length (n : Nat) (h : n ≤ 99999) :
    (zfill5 (strBytes n)).length = 5 := by
  unfold zfill5 strBytes
  have := strDigits_length_le n h
  simp only [List.length_append, List.length_replicate, List.length_map]
  omega

theorem exists_five_of_length_eq {l : List Nat} (h : l.length = 5) :
    ∃ a b c d e, l = [a, b, c, d, e] := by
  rcases l with _ | ⟨a, _ | ⟨b, _ | ⟨c, _ | ⟨d, _ | ⟨e, _ | ⟨x, t⟩⟩⟩⟩⟩⟩ <;>
    simp_all

theorem PacketFormat.ofVal_val (f : PacketFormat) :
    PacketFormat.ofVal (f.val % 256) = some f := by
  cases f <;> rfl

/-- C1.  Codec round-trip: for every format of the `PacketFormat`
enumeration and every payload of at most 99999 bytes, decoding the bytes
produced by `build_packet` — byte 0 as the format code, bytes 1–5 as the
ASCII decimal payload length, then that many payload bytes — yields back
exactly the format and the payload, consuming the whole packet. -/
theorem packet_roundtrip (f : PacketFormat) (p : List Nat)
    (hp : p.length ≤ 99999) :
    decodePacket (build_packet f.val p) = some (f, p, []) := by
  obtain ⟨a, b, c, d, e, hz⟩ :=
    exists_five_of_length_eq (zfill5_strBytes_length p.length hp)
  have hparse : parseDigits [a, b, c, d, e] = some p.length := by
    rw [← hz]; exact parseDigits_zfill p.length
  have hpacket : build_packet f.val p
      = (f.val % 256) :: a :: b :: c :: d :: e :: p := by
    unfold build_packet build_header
    rw [hz]
    simp
  rw [hpacket]
  simp only [decodePacket, PacketFormat.ofVal_val, hparse]
  simp

/-- Witness for C1 at a concrete format and payload. -/
theorem packet_roundtrip_witness :
    ([7, 8, 9] : List Nat).length ≤ 99999 ∧
      decodePacket (build_packet PacketFormat.RAW.val [7, 8, 9])
        = some (PacketFormat.RAW, [7, 8, 9], []) :=
  ⟨by decide, packet_roundtrip PacketFormat.RAW [7, 8, 9] (by decide)⟩

/-- C2.  Header length boundary: for every format code, `build_header`
with length 99999 produces the expected 6-byte header, but with length
100000 it does NOT fail — it silently produces a 7-byte header whose
length field has six digits, corrupting the fixed-width framing.  This
contradicts the spec's requirement that construction fail above 99999. -/
theorem build_header_boundary_violation (fmt : Nat) :
    (build_header fmt 99999).length = 6 ∧
      (build_header fmt 100000).length = 7 := by
  constructor
  · unfold build_header
    rw [List.length_cons, zfill5_strBytes_length 99999 (by norm_num)]
  · unfold build_header zfill5 strBytes
    rw [List.length_cons]
    simp only [List.length_append, List.length_replicate, List.length_map,
      strDigits_length_100000]

/-- Witness for C2 at a concrete format code.  (The statement has no
propositional hypothesis; this records the concrete instance anyway.) -/
theorem build_header_boundary_violation_witness :
    (build_header 0 99999).length = 6 ∧ (build_header 0 100000).length = 7 :=
  build_header_boundary_violation 0

/-- C3.  The two parallel `PacketFormat` enumerations in the source
disagree: `src/net/common.py` assigns `RAW = 0`, `HEARTBEAT_PING = 1`,
`HEARTBEAT_PONG = 2`, while `src/net.py` assigns `HEARTBEAT_PING = 0`,
`HEARTBEAT_PONG = 1`, `RAW = 2`.  In particular `src/net.py` violates the
claimed shared wire codes (its `RAW` is 2, not 0). -/
theorem packetformat_codes_diverge :
    PacketFormat.val .RAW = 0 ∧ PacketFormat.val .HEARTBEAT_PING = 1 ∧
      PacketFormat.val .HEARTBEAT_PONG = 2 ∧
      NetPacketFormat.val .RAW = 2 ∧ NetPacketFormat.val .HEARTBEAT_PING = 0 ∧
      NetPacketFormat.val .HEARTBEAT_PONG = 1 := by
  decide

/-! ## Event bus (`EventManager`, `src/net/common.py` lines 92–119)

`register` keys callbacks by the callback's own `__name__`; `trigger` looks
the event name up in the dictionary, returns immediately when absent, and
otherwise calls every callback of that name in list order on the calling
thread.  A Python callback object is modelled by its name plus an identity
tag; `trigger` is pure in the source (it never mutates the registry), so it
is modelled as returning the ordered list of callbacks it invokes (each
exactly once, in order). -/

/-- A Python callback object: its `__name__` and an identity tag. -/
structure Callback where
  name : String
  tag : Nat
deriving DecidableEq, Repr

/-- The `__event_callbacks` dictionary: event name to ordered callback
list.  Keys are unique by construction (`appendCallback` reuses an existing
entry). -/
structure EventManager where
  event_callbacks : List (String × List Callback)
deriving DecidableEq, Repr

/-- The body of `register`: if no entry exists for the name, create one
with an empty list, then append the callback to the name's list. -/
def appendCallback : List (String × List Callback) → String → Callback →
    List (String × List Callback)
  | [], n, cb => [(n, [cb])]
  | (k, l) :: rest, n, cb =>
      if k = n then (k, l ++ [cb]) :: rest
      else (k, l) :: appendCallback rest n cb

/-- `EventManager.register` from `src/net/common.py`. -/
def register (m : EventManager) (cb : Callback) : EventManager :=
  ⟨appendCallback m.event_callbacks cb.name cb⟩

/-- Dictionary lookup as `trigger` performs it: the callback list of the
event name, or `[]` when no registration exists (the early-`return`
branch, which invokes nothing). -/
def lookupCbs : List (String × List Callback) → String → List Callback
  | [], _ => []
  | (k, l) :: rest, n => if k = n then l else lookupCbs rest n

/-- `EventManager.trigger` from `src/net/common.py`: the ordered sequence
of callback invocations it performs (the registry itself is untouched). -/
def trigger (m : EventManager) (event_name : String) : List Callback :=
  lookupCbs m.event_callbacks event_name

theorem lookupCbs_appendCallback (l : List (String × List Callback))
    (n : String) (cb : Callback) (name : String) :
    lookupCbs (appendCallback l n cb) name
      = if n = name then lookupCbs l name ++ [cb] else lookupCbs l name := by
  induction l with
  | nil =>
      simp only [appendCallback, lookupCbs]
      split_ifs <;> simp [lookupCbs]
  | cons hd tl ih =>
      obtain ⟨k, cl⟩ := hd
      by_cases hk : k = n
      · subst hk
        simp only [appendCallback, if_pos rfl, lookupCbs]
        by_cases hn : k = name
        · simp [hn]
        · simp [hn]
      · simp only [appendCallback, if_neg hk, lookupCbs]
        by_cases hkn : k = name
        · subst hkn
          have hnn : ¬n = k := fun h => hk h.symm
          simp [if_neg hnn]
        · simp only [if_neg hkn]
          exact ih

theorem trigger_register (m : EventManager) (cb : Callback) (name : String) :
    trigger (register m cb) name
      = if cb.name = name then trigger m name ++ [cb] else trigger m name := by
  unfold trigger register
  exact lookupCbs_appendCallback m.event_callbacks cb.name cb name

/-- C8.  Event bus trigger semantics: after any sequence of registrations
starting from a fresh manager, `trigger` on an event name invokes exactly
the callbacks registered under that name, each exactly once, in
registration order (earlier registrations first); in particular, when no
callback was ever registered under the name, `trigger` invokes nothing
(the no-op early return), and `trigger` never modifies the registry. -/
theorem trigger_semantics (regs : List Callback) (name : String) :
    trigger (regs.foldl register (EventManager.mk [])) name
      = regs.filter (fun cb => cb.name == name) ∧
    ((∀ cb ∈ regs, cb.name ≠ name) →
      trigger (regs.foldl register (EventManager.mk [])) name = []) := by
  have key : ∀ (m : EventManager),
      trigger (regs.foldl register m) name
        = trigger m name ++ regs.filter (fun cb => cb.name == name) := by
    induction regs with
    | nil => intro m; simp
    | cons cb tl ih =>
        intro m
        rw [List.foldl_cons, ih (register m cb), trigger_register]
        by_cases hcb : cb.name = name
        · rw [if_pos hcb, List.filter_cons, if_pos (by simp [hcb]),
            List.append_assoc]
          simp
        · rw [if_neg hcb, List.filter_cons, if_neg (by simp [hcb])]
  have hmain : trigger (regs.foldl register (EventManager.mk [])) name
      = regs.filter (fun cb => cb.name == name) := by
    rw [key ⟨[]⟩]
    simp [trigger, lookupCbs]
  refine ⟨hmain, fun hnone => ?_⟩
  rw [hmain, List.filter_eq_nil_iff]
  intro cb hcb
  simpa using hnone cb hcb

/-- Witness for C8's no-op branch at a concrete registration list and
event name. -/
theorem trigger_semantics_witness :
    trigger ([Callback.mk "on_connect" 0].foldl register (EventManager.mk []))
        "on_packet"
      = [Callback.mk "on_connect" 0].filter (fun cb => cb.name == "on_packet") ∧
    trigger ([Callback.mk "on_connect" 0].foldl register (EventManager.mk []))
        "on_packet" = [] :=
  ⟨(trigger_semantics [Callback.mk "on_connect" 0] "on_packet").1,
    (trigger_semantics [Callback.mk "on_connect" 0] "on_packet").2
      (by decide)⟩

/-! ## Connection teardown
(`TCPClientConnection.disconnect`, `src/net/tcpserver.py` lines 196–206;
`TCPClient.disconnect`, `src/net/tcpclient.py` lines 84–92;
`TCPServer.stop`, `src/net/tcpserver.py` lines 78–93)

A server-side connection object is modelled by its id, its `_is_running`
flag and two effect counters (times `on_disconnect` was triggered for it,
times its socket was closed).  The server state holds the `clients`
registry (a list of connection ids in accept order), the pool of all
connection objects, and the admission-semaphore counter.  The sequence of
statements in `disconnect` (flag flip, registry removal, `on_disconnect`
trigger, socket close, semaphore release) becomes one state transition,
guarded exactly as in the source by the early `return` when the flag is
already false. -/

/-- A server-side `TCPClientConnection` object, reduced to the state
`disconnect` touches. -/
structure Conn where
  cid : Nat
  is_running : Bool
  on_disconnect_count : Nat
  close_count : Nat
deriving DecidableEq, Repr

/-- Server state touched by `disconnect` and `stop`. -/
structure ServerState where
  clients : List Nat
  conns : List Conn
  sem_permits : Nat
deriving DecidableEq, Repr

/-- Python's `list.remove(x)`: delete the first occurrence.  (The source
can only reach it while the element is present, thanks to the running-flag
guard; an absent element is left as a no-op here.) -/
def removeFirst : List Nat → Nat → List Nat
  | [], _ => []
  | x :: xs, a => if x = a then xs else x :: removeFirst xs a

/-- `TCPClientConnection.disconnect` from `src/net/tcpserver.py`: return
immediately unless `_is_running`; otherwise clear the flag, remove the
connection from `server.clients`, trigger `on_disconnect`, close the
socket and release one admission permit. -/
def disconnect (s : ServerState) (cid : Nat) : ServerState :=
  match s.conns.find? (fun c => c.cid == cid) with
  | none => s
  | some c =>
      if c.is_running = false then s
      else
        { clients := removeFirst s.clients cid
          conns := s.conns.map (fun c2 =>
            if c2.cid == cid then
              { c2 with
                is_running := false
                on_disconnect_count := c2.on_disconnect_count + 1
                close_count := c2.close_count + 1 }
            else c2)
          sem_permits := s.sem_permits + 1 }

/-- A `TCPClient` (client side), reduced to the state its `disconnect`
touches. -/
structure ClientState where
  is_running : Bool
  on_disconnect_count : Nat
  close_count : Nat
deriving DecidableEq, Repr

/-- `TCPClient.disconnect` from `src/net/tcpclient.py`: return immediately
unless `_is_running`; otherwise clear the flag, trigger `on_disconnect`
and close the socket. -/
def clientDisconnect (s : ClientState) : ClientState :=
  if s.is_running = false then s
  else
    { is_running := false
      on_disconnect_count := s.on_disconnect_count + 1
      close_count := s.close_count + 1 }

/-- The connection update `disconnect` applies to the object it stops. -/
def stopConn (c : Conn) : Conn :=
  { c with
    is_running := false
    on_disconnect_count := c.on_disconnect_count + 1
    close_count := c.close_count + 1 }

theorem find?_disconnect_map (s : ServerState) (cid : Nat) :
    (s.conns.map (fun c2 => if c2.cid == cid then stopConn c2 else c2)).find?
        (fun c => c.cid == cid)
      = (s.conns.find? (fun c => c.cid == cid)).map
          (fun c2 => if c2.cid == cid then stopConn c2 else c2) := by
  have hp : ((fun c : Conn => c.cid == cid) ∘
        (fun c2 => if c2.cid == cid then stopConn c2 else c2))
      = (fun c : Conn => c.cid == cid) := by
    funext c
    by_cases h : c.cid = cid <;> simp [stopConn, h]
  rw [List.find?_map, hp]

theorem disconnect_of_not_running (s : ServerState) (cid : Nat) (c : Conn)
    (hfind : s.conns.find? (fun x => x.cid == cid) = some c)
    (hrun : c.is_running = false) : disconnect s cid = s := by
  simp [disconnect, hfind, hrun]

/-- C4.  Idempotent disconnect, server and client side: a first call on a
running connection flips the running flag, removes the connection from the
registry, triggers `on_disconnect` once, closes the socket once and
releases one permit; a second call (indeed any later call) finds the flag
already false and returns immediately, changing nothing. -/
theorem disconnect_idempotent
    (srv : ServerState) (cid : Nat) (c : Conn)
    (hfind : srv.conns.find? (fun x => x.cid == cid) = some c)
    (hrun : c.is_running = true)
    (cl : ClientState) (hcl : cl.is_running = true) :
    disconnect (disconnect srv cid) cid = disconnect srv cid ∧
    (disconnect srv cid).clients = removeFirst srv.clients cid ∧
    (disconnect srv cid).conns.find? (fun x => x.cid == cid)
      = some (stopConn c) ∧
    (disconnect srv cid).sem_permits = srv.sem_permits + 1 ∧
    clientDisconnect (clientDisconnect cl) = clientDisconnect cl ∧
    (clientDisconnect cl).is_running = false ∧
    (clientDisconnect cl).on_disconnect_count = cl.on_disconnect_count + 1 ∧
    (clientDisconnect cl).close_count = cl.close_count + 1 := by
  have hccid : c.cid = cid := by
    have := List.find?_some hfind
    simpa using this
  have hs1 : disconnect srv cid
      = { clients := removeFirst srv.clients cid
          conns := srv.conns.map (fun c2 =>
            if c2.cid == cid then stopConn c2 else c2)
          sem_permits := srv.sem_permits + 1 } := by
    simp only [disconnect, hfind, hrun]
    simp [stopConn]
  have hfind1 : (disconnect srv cid).conns.find? (fun x => x.cid == cid)
      = some (stopConn c) := by
    rw [hs1]
    simpa [hfind, hccid] using find?_disconnect_map srv cid
  refine ⟨disconnect_of_not_running (disconnect srv cid) cid (stopConn c)
      hfind1 rfl, ?_, hfind1, ?_, ?_, ?_, ?_, ?_⟩
  · rw [hs1]
  · rw [hs1]
  · simp [clientDisconnect, hcl]
  · simp [clientDisconnect, hcl]
  · simp [clientDisconnect, hcl]
  · simp [clientDisconnect, hcl]

/-- Witness for C4 at a concrete one-connection server and a running
client. -/
theorem disconnect_idempotent_witness :
    (⟨[5], [⟨5, true, 0, 0⟩], 0⟩ : ServerState).conns.find?
        (fun x => x.cid == 5) = some ⟨5, true, 0, 0⟩ ∧
    disconnect (disconnect ⟨[5], [⟨5, true, 0, 0⟩], 0⟩ 5) 5
      = disconnect ⟨[5], [⟨5, true, 0, 0⟩], 0⟩ 5 ∧
    clientDisconnect (clientDisconnect ⟨true, 0, 0⟩)
      = clientDisconnect ⟨true, 0, 0⟩ :=
  ⟨by decide,
    (disconnect_idempotent ⟨[5], [⟨5, true, 0, 0⟩], 0⟩ 5 ⟨5, true, 0, 0⟩
      (by decide) (by decide) ⟨true, 0, 0⟩ (by decide)).1,
    (disconnect_idempotent ⟨[5], [⟨5, true, 0, 0⟩], 0⟩ 5 ⟨5, true, 0, 0⟩
      (by decide) (by decide) ⟨true, 0, 0⟩ (by decide)).2.2.2.2.1⟩

/-! ### `TCPServer.stop`'s disconnect loop

`stop` runs `for client in self.clients: client.disconnect()`.  A Python
`for` over a list walks an internal index: at index `i` it yields
`clients[i]` if `i < len(clients)` and stops otherwise, and the body's
`disconnect` removes the yielded client from that same list.  `stopLoopAux`
models this index walk; the fuel argument only bounds the recursion and is
set to the initial registry length, which suffices because every iteration
increments the index by one and never lengthens the list, so after that
many iterations the index test is false anyway. -/
def stopLoopAux : Nat → Nat → ServerState → ServerState
  | 0, _, s => s
  | fuel + 1, i, s =>
      if h : i < s.clients.length then
        stopLoopAux fuel (i + 1) (disconnect s (s.clients.get ⟨i, h⟩))
      else s

/-- The `for client in self.clients: client.disconnect()` loop of
`TCPServer.stop`. -/
def stopDisconnectAll (s : ServerState) : ServerState :=
  stopLoopAux s.clients.length 0 s

/-- C5 counterexample: with two live connections `[1, 2]`, `stop`'s
disconnect loop removes connection 1 from the very list it is iterating,
so the index walk skips connection 2 entirely: connection 2 keeps running,
gets no `on_disconnect`, no socket close, and stays in the registry. -/
theorem stop_skips_second_connection :
    (stopDisconnectAll ⟨[1, 2], [⟨1, true, 0, 0⟩, ⟨2, true, 0, 0⟩], 0⟩).conns
        = [⟨1, false, 1, 1⟩, ⟨2, true, 0, 0⟩] ∧
      (stopDisconnectAll
          ⟨[1, 2], [⟨1, true, 0, 0⟩, ⟨2, true, 0, 0⟩], 0⟩).clients = [2] := by
  decide

/-! ## Admission control (`TCPServer._listen_job`, `src/net/tcpserver.py`
lines 95–124, with the permit release in `disconnect`, lines 196–206)

With `max_connections = K > 0` the accept loop calls
`self._conn_sem.acquire()` (initial permits `K`) before each
`socket.accept()`, and `disconnect` releases one permit.  The states the
accept loop and the teardown paths can produce before `stop()` are modelled
as a transition system: `acquire` takes a permit (blocking, hence only
enabled when a permit exists), `accept` turns the held permit into a live
registered connection, and `disconnect` retires a live connection and
returns its permit.  The accept loop is a single thread, so at most one
permit is held between its `acquire` and the registry append. -/

/-- Semaphore counter, whether the accept loop holds a permit it has not
yet turned into a registered connection, and the number of live (appended,
not yet disconnected) connections. -/
structure AdmissionState where
  permits : Nat
  acquired : Bool
  live : Nat
deriving DecidableEq, Repr

/-- The three events of the admission protocol before `stop()`. -/
inductive AdmissionStep : AdmissionState → AdmissionState → Prop
  | acquire (s : AdmissionState) : s.acquired = false → 0 < s.permits →
      AdmissionStep s ⟨s.permits - 1, true, s.live⟩
  | accept (s : AdmissionState) : s.acquired = true →
      AdmissionStep s ⟨s.permits, false, s.live + 1⟩
  | teardown (s : AdmissionState) : 0 < s.live →
      AdmissionStep s ⟨s.permits + 1, s.acquired, s.live - 1⟩

/-- States reachable from a freshly started server configured with
`max_connections = K`: semaphore at `K`, no permit held, no connection. -/
inductive AdmissionReachable (K : Nat) : AdmissionState → Prop
  | init : AdmissionReachable K ⟨K, false, 0⟩
  | step {s t : AdmissionState} : AdmissionReachable K s →
      AdmissionStep s t → AdmissionReachable K t

theorem admission_invariant {K : Nat} {s : AdmissionState}
    (h : AdmissionReachable K s) :
    s.permits + s.live + (if s.acquired then 1 else 0) = K := by
  induction h with
  | init => simp
  | step hr hstep ih =>
      cases hstep with
      | acquire hacq hpos => simp_all; omega
      | accept hacq => simp_all; omega
      | teardown hpos => simp_all; omega

/-- C7.  Admission-control bound: with `max_connections = K > 0`, in every
state the accept loop and the teardown paths can reach before `stop()`,
the number of simultaneously live connections never exceeds `K` — one
semaphore permit (of `K` initial) is taken before each accept and returned
exactly when an accepted connection disconnects. -/
theorem admission_bound (K : Nat) (s : AdmissionState) (_hK : 0 < K)
    (h : AdmissionReachable K s) : s.live ≤ K := by
  have hinv := admission_invariant h
  omega

/-- Witness for C7 at `K = 1`: live count after admitting one connection. -/
theorem admission_bound_witness :
    0 < 1 ∧ (⟨0, false, 1⟩ : AdmissionState).live ≤ 1 :=
  ⟨Nat.one_pos,
    admission_bound 1 ⟨0, false, 1⟩ Nat.one_pos
      (AdmissionReachable.step
        (AdmissionReachable.step AdmissionReachable.init
          (AdmissionStep.acquire ⟨1, false, 0⟩ rfl Nat.one_pos))
        (AdmissionStep.accept ⟨0, true, 0⟩ rfl))⟩

/-! ## Receive loops
(`TCPClientConnection._listen_job`, `src/net/tcpserver.py` lines 215–263;
`TCPClient._listen_job`, `src/net/tcpclient.py` lines 94–148)

The socket is modelled as a byte stream delivered in order; `recv(n)`
returns the next `min(n, available)` bytes, and returns the empty string
once the peer has closed (stream exhausted).  One loop iteration: read 6
header bytes; an empty header read means the peer closed → `disconnect`
(modelled as clearing the running flag; its other effects are the
`disconnect` model above).  Then `Header(PacketFormat(int(b[0])),
int(b[1:]))` — an unrecognized format code or non-digit length bytes raise
`ValueError`, which nothing in the loop catches, killing the thread
(`fatal`).  Then read `header.length` payload bytes — with NO empty-read
check — build the `Packet`, enqueue it, and (server side only) increment
`server._packet_counter`.  The `if not self._is_running: return` re-check
before the enqueue cannot fire in this single-threaded model, and the
socket-exception branches (reset/abort, `OSError`) are outside the
byte-stream model. -/

/-- Wire header as both receive loops decode it. -/
structure Header where
  format : PacketFormat
  length : Nat
deriving DecidableEq, Repr

/-- A received packet (the `perf_counter` timestamp carried by the Python
`Packet` is time-dependent and not part of this model). -/
structure Packet where
  data : List Nat
  header : Header
deriving DecidableEq, Repr

/-- Server-side receive-loop state: undelivered socket bytes, everything
ever put into `self._incoming`, the owning server's `_packet_counter`,
the `_is_running` flag, and whether an uncaught exception killed the
thread. -/
structure ListenState where
  stream : List Nat
  incoming : List Packet
  packet_counter : Nat
  is_running : Bool
  fatal : Bool
deriving DecidableEq, Repr

/-- One iteration of `TCPClientConnection._listen_job`. -/
def listenStep (s : ListenState) : ListenState :=
  if s.fatal = true then s
  else if s.is_running = false then s
  else
    match s.stream.take 6 with
    | [] => { s with is_running := false }
    | b0 :: lenBytes =>
        match PacketFormat.ofVal b0, parseDigits lenBytes with
        | some fmt, some len =>
            { s with
              stream := (s.stream.drop 6).drop len
              incoming := s.incoming ++ [⟨(s.stream.drop 6).take len, ⟨fmt, len⟩⟩]
              packet_counter := s.packet_counter + 1 }
        | _, _ => { s with fatal := true }

/-- The receive loop run for `fuel` iterations; terminated states are
fixed points of `listenStep`, so any sufficiently large fuel gives the
loop's final state. -/
def listenRun : Nat → ListenState → ListenState
  | 0, s => s
  | fuel + 1, s => listenRun fuel (listenStep s)

/-- The whole receive loop on a finite stream: every productive iteration
consumes at least the 6 header bytes, so `stream.length + 1` iterations
always reach a terminated state. -/
def listenRunAll (s : ListenState) : ListenState :=
  listenRun (s.stream.length + 1) s

/-- Client-side receive-loop state (`TCPClient._listen_job` is the same
loop without the server's packet counter). -/
structure ClientListenState where
  stream : List Nat
  incoming : List Packet
  is_running : Bool
  fatal : Bool
deriving DecidableEq, Repr

/-- One iteration of `TCPClient._listen_job`. -/
def clientListenStep (s : ClientListenState) : ClientListenState :=
  if s.fatal = true then s
  else if s.is_running = false then s
  else
    match s.stream.take 6 with
    | [] => { s with is_running := false }
    | b0 :: lenBytes =>
        match PacketFormat.ofVal b0, parseDigits lenBytes with
        | some fmt, some len =>
            { s with
              stream := (s.stream.drop 6).drop len
              incoming := s.incoming ++ [⟨(s.stream.drop 6).take len, ⟨fmt, len⟩⟩] }
        | _, _ => { s with fatal := true }

/-! ### Frame-consumption lemmas -/

theorem listenStep_frame (f : PacketFormat) (p : List Nat)
    (hp : p.length ≤ 99999) (rest : List Nat) (s : ListenState)
    (hrun : s.is_running = true) (hfatal : s.fatal = false)
    (hstream : s.stream = build_packet f.val p ++ rest) :
    listenStep s
      = { s with
          stream := rest
          incoming := s.incoming ++ [⟨p, ⟨f, p.length⟩⟩]
          packet_counter := s.packet_counter + 1 } := by
  obtain ⟨a, b, c, d, e, hz⟩ :=
    exists_five_of_length_eq (zfill5_strBytes_length p.length hp)
  have hparse : parseDigits [a, b, c, d, e] = some p.length := by
    rw [← hz]; exact parseDigits_zfill p.length
  have hstream' : s.stream
      = (f.val % 256) :: a :: b :: c :: d :: e :: (p ++ rest) := by
    rw [hstream]
    unfold build_packet build_header
    rw [hz]
    simp
  have htake : s.stream.take 6 = (f.val % 256) :: [a, b, c, d, e] := by
    rw [hstream']
    rfl
  have hdrop : s.stream.drop 6 = p ++ rest := by
    rw [hstream']
    rfl
  unfold listenStep
  rw [hfatal, hrun]
  simp only [Bool.true_eq_false, if_false, htake, PacketFormat.ofVal_val,
    hparse, hdrop, List.take_left, List.drop_left]
  simp

theorem clientListenStep_frame (f : PacketFormat) (p : List Nat)
    (hp : p.length ≤ 99999) (rest : List Nat) (s : ClientListenState)
    (hrun : s.is_running = true) (hfatal : s.fatal = false)
    (hstream : s.stream = build_packet f.val p ++ rest) :
    clientListenStep s
      = { s with
          stream := rest
          incoming := s.incoming ++ [⟨p, ⟨f, p.length⟩⟩] } := by
  obtain ⟨a, b, c, d, e, hz⟩ :=
    exists_five_of_length_eq (zfill5_strBytes_length p.length hp)
  have hparse : parseDigits [a, b, c, d, e] = some p.length := by
    rw [← hz]; exact parseDigits_zfill p.length
  have hstream' : s.stream
      = (f.val % 256) :: a :: b :: c :: d :: e :: (p ++ rest) := by
    rw [hstream]
    unfold build_packet build_header
    rw [hz]
    simp
  have htake : s.stream.take 6 = (f.val % 256) :: [a, b, c, d, e] := by
    rw [hstream']
    rfl
  have hdrop : s.stream.drop 6 = p ++ rest := by
    rw [hstream']
    rfl
  unfold clientListenStep
  rw [hfatal, hrun]
  simp only [Bool.true_eq_false, if_false, htake, PacketFormat.ofVal_val,
    hparse, hdrop, List.take_left, List.drop_left]
  simp

/-! ### Whole-stream runs -/

theorem listenStep_of_not_running (s : ListenState)
    (h : s.is_running = false) : listenStep s = s := by
  unfold listenStep
  by_cases hf : s.fatal = true
  · rw [if_pos hf]
  · rw [if_neg hf, h, if_pos rfl]

theorem listenRun_of_not_running (fuel : Nat) (s : ListenState)
    (h : s.is_running = false) : listenRun fuel s = s := by
  induction fuel with
  | zero => rfl
  | succ m ih =>
      unfold listenRun
      rw [listenStep_of_not_running s h]
      exact ih

/-- The wire bytes of a sequence of frames, each given as a format and a
payload, in order. -/
def encodeFrames (frames : List (PacketFormat × List Nat)) : List Nat :=
  (frames.map (fun fr => build_packet fr.1.val fr.2)).flatten

theorem length_le_encodeFrames (frames : List (PacketFormat × List Nat)) :
    frames.length ≤ (encodeFrames frames).length := by
  induction frames with
  | nil => simp [encodeFrames]
  | cons fr tl ih =>
      simp only [encodeFrames, List.map_cons, List.flatten_cons,
        List.length_append, List.length_cons]
      have h1 : 1 ≤ (build_packet fr.1.val fr.2).length := by
        unfold build_packet build_header
        simp
      simp only [encodeFrames] at ih
      omega

theorem listenRun_frames (frames : List (PacketFormat × List Nat))
    (hp : ∀ fr ∈ frames, fr.2.length ≤ 99999) :
    ∀ (fuel : Nat) (s : ListenState), s.is_running = true → s.fatal = false →
      s.stream = encodeFrames frames → frames.length + 1 ≤ fuel →
      listenRun fuel s
        = { s with
            stream := []
            incoming := s.incoming
              ++ frames.map (fun fr => ⟨fr.2, ⟨fr.1, fr.2.length⟩⟩)
            packet_counter := s.packet_counter + frames.length
            is_running := false } := by
  induction frames with
  | nil =>
      intro fuel s hrun hfatal hstream hfuel
      obtain ⟨m, rfl⟩ : ∃ m, fuel = m + 1 :=
        ⟨fuel - 1, by omega⟩
      have hstep : listenStep s = { s with is_running := false } := by
        unfold listenStep
        rw [if_neg (by rw [hfatal]; simp), hrun]
        have htake : s.stream.take 6 = [] := by
          rw [hstream]; rfl
        rw [htake]
        simp
      unfold listenRun
      rw [hstep, listenRun_of_not_running m _ rfl]
      simp [hstream, encodeFrames]
  | cons fr tl ih =>
      intro fuel s hrun hfatal hstream hfuel
      obtain ⟨m, rfl⟩ : ∃ m, fuel = m + 1 := ⟨fuel - 1, by omega⟩
      have hfr : fr.2.length ≤ 99999 := hp fr (by simp)
      have htl : ∀ x ∈ tl, x.2.length ≤ 99999 :=
        fun x hx => hp x (by simp [hx])
      have hstream' : s.stream = build_packet fr.1.val fr.2 ++ encodeFrames tl := by
        rw [hstream]
        simp [encodeFrames]
      have hstep := listenStep_frame fr.1 fr.2 hfr (encodeFrames tl) s
        hrun hfatal hstream'
      unfold listenRun
      rw [hstep]
      have ihres := ih htl m
        ⟨encodeFrames tl, s.incoming ++ [⟨fr.2, ⟨fr.1, fr.2.length⟩⟩],
          s.packet_counter + 1, s.is_running, s.fatal⟩
        hrun hfatal rfl (by simp at hfuel ⊢; omega)
      rw [ihres]
      simp only [List.map_cons]
      congr 1
      · rw [List.append_assoc]
        simp
      · simp
        omega

/-- C9 (amended).  Packet counter accounting: the receive loop increments
`server._packet_counter` once per successfully received frame of ANY
format — heartbeat control frames included — so after a stream of frames
the counter's increase equals the total number of frames, and every frame
(heartbeats too) is enqueued. -/
theorem packet_counter_counts_all_frames
    (frames : List (PacketFormat × List Nat))
    (hp : ∀ fr ∈ frames, fr.2.length ≤ 99999) :
    (listenRunAll ⟨encodeFrames frames, [], 0, true, false⟩).packet_counter
        = frames.length ∧
      (listenRunAll ⟨encodeFrames frames, [], 0, true, false⟩).incoming
        = frames.map (fun fr => ⟨fr.2, ⟨fr.1, fr.2.length⟩⟩) := by
  have h := listenRun_frames frames hp
    ((⟨encodeFrames frames, [], 0, true, false⟩ : ListenState).stream.length + 1)
    ⟨encodeFrames frames, [], 0, true, false⟩ rfl rfl rfl
    (by simpa using Nat.succ_le_succ (length_le_encodeFrames frames))
  unfold listenRunAll
  rw [h]
  simp

/-- Witness for C9's amended theorem at a concrete two-frame stream
(one heartbeat ping, one RAW payload). -/
theorem packet_counter_counts_all_frames_witness :
    (∀ fr ∈ [(PacketFormat.HEARTBEAT_PING, ([] : List Nat)),
        (PacketFormat.RAW, [65, 66])], fr.2.length ≤ 99999) ∧
      (listenRunAll
          ⟨encodeFrames [(PacketFormat.HEARTBEAT_PING, []),
            (PacketFormat.RAW, [65, 66])], [], 0, true, false⟩).packet_counter
        = 2 :=
  ⟨by decide,
    (packet_counter_counts_all_frames
      [(PacketFormat.HEARTBEAT_PING, []), (PacketFormat.RAW, [65, 66])]
      (by decide)).1⟩

/-- C9 counterexample to the claim as stated: a stream consisting of one
`HEARTBEAT_PING` frame contains zero application (RAW) packets, yet the
counter rises by 1 — the loop counts heartbeat control frames too. -/
theorem packet_counter_counts_heartbeat :
    (listenRunAll ⟨build_packet PacketFormat.HEARTBEAT_PING.val [],
        [], 0, true, false⟩).packet_counter = 1 ∧
      ((listenRunAll ⟨build_packet PacketFormat.HEARTBEAT_PING.val [],
          [], 0, true, false⟩).incoming.filter
        (fun p => p.header.format == PacketFormat.RAW)).length = 0 ∧
      (listenRunAll ⟨build_packet PacketFormat.HEARTBEAT_PING.val [],
          [], 0, true, false⟩).packet_counter
        ≠ ((listenRunAll ⟨build_packet PacketFormat.HEARTBEAT_PING.val [],
            [], 0, true, false⟩).incoming.filter
          (fun p => p.header.format == PacketFormat.RAW)).length := by
  decide

/-- C10.  Zero-length payload frames are delivered, not treated as peer
closure: on a frame whose header declares length 0 (as every heartbeat
frame does), both receive loops enqueue a `Packet` with empty data and
keep running; the empty-read disconnect check fires only for the 6-byte
header read (an exhausted stream, last two conjuncts). -/
theorem zero_length_frames_delivered (f : PacketFormat) (rest : List Nat)
    (q : List Packet) (cnt : Nat) :
    listenStep ⟨build_packet f.val [] ++ rest, q, cnt, true, false⟩
        = ⟨rest, q ++ [⟨[], ⟨f, 0⟩⟩], cnt + 1, true, false⟩ ∧
      clientListenStep ⟨build_packet f.val [] ++ rest, q, true, false⟩
        = ⟨rest, q ++ [⟨[], ⟨f, 0⟩⟩], true, false⟩ ∧
      listenStep ⟨[], q, cnt, true, false⟩ = ⟨[], q, cnt, false, false⟩ ∧
      clientListenStep ⟨[], q, true, false⟩ = ⟨[], q, false, false⟩ := by
  refine ⟨?_, ?_, by rfl, by rfl⟩
  · exact listenStep_frame f [] (by simp) rest _ rfl rfl rfl
  · exact clientListenStep_frame f [] (by simp) rest _ rfl rfl rfl

/-! ## Client heartbeat (`TCPClient._send_job`, `src/net/tcpclient.py`
lines 172–206, and `TCPClient._process_job`, lines 150–170)

With no application traffic the send loop's only effect per iteration is
the heartbeat guard: when `_is_heartbeat_done` and `time() -
_heartbeat_last >= 0.5` it stores `time()` into `_heartbeat_last`, clears
`_is_heartbeat_done`, stores `perf_counter()` into `_heartbeat_sent` and
sends one `HEARTBEAT_PING`.  The dispatch loop, on consuming a
`HEARTBEAT_PONG` packet, sets `_is_heartbeat_done` and assigns `latency =
packet.timestamp - _heartbeat_sent`; on any other packet it only triggers
`on_packet`.  Clock readings are modelled as rationals attached to each
loop iteration: a send iteration carries its two `time()` samples (the
guard's and the assignment's) and its `perf_counter()` sample; a pong
iteration carries the packet's `perf_counter` timestamp.  The sent pings
are logged as the `time()` values stored into `_heartbeat_last`. -/

/-- Client heartbeat bookkeeping plus a log of ping-send instants. -/
structure HeartbeatState where
  heartbeat_last : ℚ
  heartbeat_sent : ℚ
  is_heartbeat_done : Bool
  latency : ℚ
  pings : List ℚ
deriving DecidableEq, Repr

/-- One loop iteration relevant to the heartbeat state: a send-loop
iteration with its clock samples (`t1`, `t2` the two `time()` calls in
program order, `tp` the `perf_counter()` call), a dispatch-loop iteration
consuming a `HEARTBEAT_PONG` stamped `ts`, or consuming any other
packet. -/
inductive HBEvent where
  | sendIter (t1 t2 tp : ℚ)
  | pongIter (ts : ℚ)
  | otherIter
deriving DecidableEq, Repr

/-- The effect of one iteration on the heartbeat state. -/
def hbStep (s : HeartbeatState) : HBEvent → HeartbeatState
  | .sendIter t1 t2 tp =>
      if s.is_heartbeat_done = true ∧ 1 / 2 ≤ t1 - s.heartbeat_last then
        { s with
          heartbeat_last := t2
          is_heartbeat_done := false
          heartbeat_sent := tp
          pings := s.pings ++ [t2] }
      else s
  | .pongIter ts =>
      { s with
        is_heartbeat_done := true
        latency := ts - s.heartbeat_sent }
  | .otherIter => s

/-- A whole interleaving of send-loop and dispatch-loop iterations. -/
def hbRun (s : HeartbeatState) (evs : List HBEvent) : HeartbeatState :=
  evs.foldl hbStep s

/-- The `time()` samples an iteration takes, in program order. -/
def timeSamples : HBEvent → List ℚ
  | .sendIter t1 t2 _ => [t1, t2]
  | _ => []

/-- All `time()` samples of a run, in order. -/
def timesOf (evs : List HBEvent) : List ℚ :=
  (evs.map timeSamples).flatten

theorem hbRun_pings_spaced (evs : List HBEvent) :
    ∀ s : HeartbeatState,
      List.Chain' (· ≤ ·) (s.heartbeat_last :: timesOf evs) →
      (∀ p ∈ s.pings, p ≤ s.heartbeat_last) →
      List.Pairwise (fun a b => a + 1 / 2 ≤ b) s.pings →
      List.Pairwise (fun a b => a + 1 / 2 ≤ b) (hbRun s evs).pings := by
  induction evs with
  | nil => intro s _ _ hpw; exact hpw
  | cons e evs ih =>
      intro s hchain hle hpw
      have hrun : hbRun s (e :: evs) = hbRun (hbStep s e) evs := rfl
      rw [hrun]
      cases e with
      | otherIter =>
          exact ih s (by simpa [timesOf, timeSamples] using hchain) hle hpw
      | pongIter ts =>
          exact ih _ (by simpa [timesOf, timeSamples] using hchain) hle hpw
      | sendIter t1 t2 tp =>
          have hchain' : List.Chain' (· ≤ ·)
              (s.heartbeat_last :: t1 :: t2 :: timesOf evs) := by
            simpa [timesOf, timeSamples] using hchain
          rw [List.chain'_cons] at hchain'
          obtain ⟨hlast_t1, hchain''⟩ := hchain'
          rw [List.chain'_cons] at hchain''
          obtain ⟨ht1_t2, hchain_t2⟩ := hchain''
          by_cases hguard :
              s.is_heartbeat_done = true ∧ 1 / 2 ≤ t1 - s.heartbeat_last
          · have hstep : hbStep s (.sendIter t1 t2 tp)
                = { s with
                    heartbeat_last := t2
                    is_heartbeat_done := false
                    heartbeat_sent := tp
                    pings := s.pings ++ [t2] } := by
              simp only [hbStep]
              rw [if_pos hguard]
            rw [hstep]
            refine ih _ (by simpa using hchain_t2) ?_ ?_
            · intro p hp
              simp only [List.mem_append, List.mem_singleton] at hp
              rcases hp with hp | hp
              · have := hle p hp
                calc p ≤ s.heartbeat_last := this
                  _ ≤ t1 := hlast_t1
                  _ ≤ t2 := ht1_t2
              · simp [hp]
            · rw [List.pairwise_append]
              refine ⟨hpw, by simp, ?_⟩
              intro a ha b hb
              simp only [List.mem_singleton] at hb
              rw [hb]
              have h1 : a ≤ s.heartbeat_last := hle a ha
              have h2 : 1 / 2 ≤ t1 - s.heartbeat_last := hguard.2
              have h3 : t1 ≤ t2 := ht1_t2
              linarith
          · have hstep : hbStep s (.sendIter t1 t2 tp) = s := by
              simp only [hbStep]
              rw [if_neg hguard]
            rw [hstep]
            refine ih s ?_ hle hpw
            rw [List.chain'_cons'] at hchain_t2 ⊢
            refine ⟨?_, hchain_t2.2⟩
            intro y hy
            have := hchain_t2.1 y hy
            calc s.heartbeat_last ≤ t1 := hlast_t1
              _ ≤ t2 := ht1_t2
              _ ≤ y := this

/-- C6.  Heartbeat cadence and latency update.  (1) In any interleaving of
send- and dispatch-loop iterations whose `time()` samples are
nondecreasing (and not before the initial `_heartbeat_last`), the recorded
ping instants are pairwise at least 500 ms apart — so at most one
`HEARTBEAT_PING` is sent per 500 ms window.  (2) A send iteration sends a
ping iff no heartbeat is pending and at least 500 ms have elapsed since
the last one.  (3) `latency` changes only when a `HEARTBEAT_PONG` is
consumed, and (4) then it is assigned `packet.timestamp` minus the
`perf_counter()` instant recorded when the pending ping was dispatched. -/
theorem heartbeat_cadence_and_latency :
    (∀ (s0 : HeartbeatState) (evs : List HBEvent),
        s0.pings = [] →
        List.Chain' (· ≤ ·) (s0.heartbeat_last :: timesOf evs) →
        List.Pairwise (fun a b => a + 1 / 2 ≤ b) (hbRun s0 evs).pings) ∧
      (∀ (s : HeartbeatState) (t1 t2 tp : ℚ),
        (hbStep s (.sendIter t1 t2 tp)).pings ≠ s.pings ↔
          s.is_heartbeat_done = true ∧ 1 / 2 ≤ t1 - s.heartbeat_last) ∧
      (∀ (s : HeartbeatState) (e : HBEvent),
        (hbStep s e).latency ≠ s.latency →
          ∃ ts, e = HBEvent.pongIter ts ∧
            (hbStep s e).latency = ts - s.heartbeat_sent) ∧
      (∀ (s : HeartbeatState) (ts : ℚ),
        (hbStep s (.pongIter ts)).latency = ts - s.heartbeat_sent ∧
          (hbStep s (.pongIter ts)).is_heartbeat_done = true) := by
  refine ⟨?_, ?_, ?_, ?_⟩
  · intro s0 evs hpings hchain
    refine hbRun_pings_spaced evs s0 hchain ?_ ?_
    · intro p hp
      rw [hpings] at hp
      simp at hp
    · rw [hpings]
      exact List.Pairwise.nil
  · intro s t1 t2 tp
    constructor
    · intro hne
      by_contra hguard
      apply hne
      simp only [hbStep]
      rw [if_neg hguard]
    · intro hguard
      simp only [hbStep]
      rw [if_pos hguard]
      intro h
      have := congrArg List.length h
      simp at this
  · intro s e hne
    cases e with
    | sendIter t1 t2 tp =>
        exfalso
        apply hne
        simp only [hbStep]
        by_cases hguard :
            s.is_heartbeat_done = true ∧ 1 / 2 ≤ t1 - s.heartbeat_last
        · rw [if_pos hguard]
        · rw [if_neg hguard]
    | pongIter ts => exact ⟨ts, rfl, rfl⟩
    | otherIter => exact absurd rfl hne
  · intro s ts
    exact ⟨rfl, rfl⟩

/-- Witness for C6 at a concrete initial state and two send iterations:
the first fires a ping, the second is within 500 ms of it and sends
nothing, so the ping log stays properly spaced. -/
theorem heartbeat_cadence_and_latency_witness :
    List.Pairwise (fun a b => a + 1 / 2 ≤ b)
      (hbRun ⟨0, 0, true, 0, []⟩
        [HBEvent.sendIter 1 1 1, HBEvent.sendIter (5 / 4) (5 / 4) 2]).pings :=
  heartbeat_cadence_and_latency.1 ⟨0, 0, true, 0, []⟩
    [HBEvent.sendIter 1 1 1, HBEvent.sendIter (5 / 4) (5 / 4) 2]
    rfl (by norm_num [timesOf, timeSamples])

end PygameNet
